import Mathlib

/-! Client scripts of blkshp_os: form handlers as state transformers.

The repository's scripts register change handlers on form fields
(`frappe.ui.form.on(doctype, { fieldname: function ... })`).  A handler reads
the document it is attached to, may update it (`frappe.model.set_value`,
`frm.set_value`) and may show notices (`frappe.msgprint`).

The embedding is shallow: a handler is a function on a `Client` state holding
the document and the notices shown so far.  `set_value` is the immediate
update of the document; field values are JavaScript values (`Value`), tested
with JavaScript truthiness.
-/

namespace BlkshpOs

/-! ## JavaScript values held by form fields -/

/-- A field value: `undefined`, `null`, a number (Check fields hold 0 or 1) or a
string (Data, Link and Date fields). -/
inductive Value where
  | undefined
  | null
  | num (n : Int)
  | str (s : String)
  deriving DecidableEq, Repr, Inhabited

namespace Value

/-- JavaScript truthiness: `undefined`, `null`, `0` and `''` are falsy. -/
def truthy : Value → Bool
  | undefined => false
  | null => false
  | num n => n != 0
  | str s => s != ""

end Value

/-- A notice passed to `frappe.msgprint`: the text handed to `__` and the
values substituted for its placeholders. -/
structure Message where
  text : String
  args : List Value := []
  deriving DecidableEq, Repr

/-- The browser side while a handler runs: the document and the notices shown
so far, oldest first. -/
structure Client (α : Type) where
  doc : α
  msgs : List Message := []
  deriving DecidableEq, Repr

/-- The call `frappe.msgprint(__(text, args))`. -/
def msgprint {α : Type} (m : Message) (c : Client α) : Client α :=
  { c with msgs := c.msgs ++ [m] }

/-! ## Department Permission rows (`public/js/user.js`) -/

/-- A row of the `department_permissions` child table of a User. -/
structure DepartmentPermissionDoc where
  department : Value := .undefined
  is_active : Value := .undefined
  can_read : Value := .undefined
  can_write : Value := .undefined
  can_create : Value := .undefined
  can_delete : Value := .undefined
  can_submit : Value := .undefined
  can_cancel : Value := .undefined
  can_approve : Value := .undefined
  valid_from : Value := .undefined
  valid_upto : Value := .undefined
  deriving DecidableEq, Repr

/-- The framework's date helpers used by the date handlers:
`frappe.datetime.str_to_obj` (the time value of the parsed date, `none` for an
invalid date), `frappe.datetime.now_date(true)` and
`frappe.datetime.str_to_user`. -/
structure Datetime where
  str_to_obj : Value → Option Int
  now_date : Option Int
  str_to_user : Value → Value

/-- The comparison `a < b` of two JavaScript dates: false as soon as one of them
is an invalid date. -/
def dateLt : Option Int → Option Int → Bool
  | some a, some b => a < b
  | _, _ => false

/-- A stand-in for the framework's date parser, used to evaluate the handlers on
concrete rows: a string `YYYY-MM-DD` is read as the number `YYYYMMDD`, which
orders dates as the time value does; anything else is an invalid date. -/
def sampleStrToObj : Value → Option Int
  | .str s =>
    let digits := s.data.filter Char.isDigit
    if s.data.length = 10 ∧ digits.length = 8 then
      some (digits.foldl (fun n d => 10 * n + (d.toNat - 48)) 0)
    else none
  | _ => none

/-- Date helpers for concrete evaluations; today is 2024-03-15. -/
def sampleDatetime : Datetime where
  str_to_obj := sampleStrToObj
  now_date := some 20240315
  str_to_user := id

namespace DepartmentPermission

/-- The fields of a row that the handlers read or write. -/
inductive Fieldname where
  | department
  | is_active
  | can_read
  | can_write
  | can_create
  | can_delete
  | can_submit
  | can_cancel
  | can_approve
  | valid_from
  | valid_upto
  deriving DecidableEq, Repr

/-- The expression `row[fieldname]`. -/
def get (row : DepartmentPermissionDoc) : Fieldname → Value
  | .department => row.department
  | .is_active => row.is_active
  | .can_read => row.can_read
  | .can_write => row.can_write
  | .can_create => row.can_create
  | .can_delete => row.can_delete
  | .can_submit => row.can_submit
  | .can_cancel => row.can_cancel
  | .can_approve => row.can_approve
  | .valid_from => row.valid_from
  | .valid_upto => row.valid_upto

/-- The assignment `row[fieldname] = value`. -/
def put (row : DepartmentPermissionDoc) (fieldname : Fieldname) (value : Value) :
    DepartmentPermissionDoc :=
  match fieldname with
  | .department => { row with department := value }
  | .is_active => { row with is_active := value }
  | .can_read => { row with can_read := value }
  | .can_write => { row with can_write := value }
  | .can_create => { row with can_create := value }
  | .can_delete => { row with can_delete := value }
  | .can_submit => { row with can_submit := value }
  | .can_cancel => { row with can_cancel := value }
  | .can_approve => { row with can_approve := value }
  | .valid_from => { row with valid_from := value }
  | .valid_upto => { row with valid_upto := value }

/-- The call `frappe.model.set_value(cdt, cdn, fieldname, value)`: the row is
updated at once. -/
def set_value (fieldname : Fieldname) (value : Value)
    (c : Client DepartmentPermissionDoc) : Client DepartmentPermissionDoc :=
  { c with doc := put c.doc fieldname value }

/-- Handler `department_permissions_add`: a new row defaults to read access. -/
def department_permissions_add (c : Client DepartmentPermissionDoc) :
    Client DepartmentPermissionDoc :=
  set_value .is_active (.num 1) (set_value .can_read (.num 1) c)

/-- Handler `can_read`. -/
def can_read (c : Client DepartmentPermissionDoc) : Client DepartmentPermissionDoc :=
  if !c.doc.can_read.truthy && !c.doc.can_write.truthy && !c.doc.can_create.truthy
      && !c.doc.can_delete.truthy && !c.doc.can_submit.truthy && !c.doc.can_cancel.truthy
      && !c.doc.can_approve.truthy then
    set_value .can_read (.num 1)
      (msgprint { text := "At least one permission must be selected." } c)
  else c

/-- Handler `can_write`. -/
def can_write (c : Client DepartmentPermissionDoc) : Client DepartmentPermissionDoc :=
  if c.doc.can_write.truthy && !c.doc.can_read.truthy then
    msgprint { text := "Read permission automatically granted with write permission." }
      (set_value .can_read (.num 1) c)
  else c

/-- Handler `can_create`. -/
def can_create (c : Client DepartmentPermissionDoc) : Client DepartmentPermissionDoc :=
  if c.doc.can_create.truthy then
    let c1 := if !c.doc.can_read.truthy then set_value .can_read (.num 1) c else c
    let c2 := if !c1.doc.can_write.truthy then set_value .can_write (.num 1) c1 else c1
    if !c2.doc.can_read.truthy || !c2.doc.can_write.truthy then
      msgprint
        { text := "Read and write permissions automatically granted with create permission." } c2
    else c2
  else c

/-- Handler `can_delete`. -/
def can_delete (c : Client DepartmentPermissionDoc) : Client DepartmentPermissionDoc :=
  if c.doc.can_delete.truthy then
    let c1 := if !c.doc.can_read.truthy then set_value .can_read (.num 1) c else c
    let c2 := if !c1.doc.can_write.truthy then set_value .can_write (.num 1) c1 else c1
    if !c2.doc.can_read.truthy || !c2.doc.can_write.truthy then
      msgprint
        { text := "Read and write permissions automatically granted with delete permission." } c2
    else c2
  else c

/-- Handler `can_submit`. -/
def can_submit (c : Client DepartmentPermissionDoc) : Client DepartmentPermissionDoc :=
  if c.doc.can_submit.truthy then
    let c1 := if !c.doc.can_read.truthy then set_value .can_read (.num 1) c else c
    let c2 := if !c1.doc.can_write.truthy then set_value .can_write (.num 1) c1 else c1
    if !c2.doc.can_read.truthy || !c2.doc.can_write.truthy then
      msgprint
        { text := "Read and write permissions automatically granted with submit permission." } c2
    else c2
  else c

/-- Handler `can_cancel`. -/
def can_cancel (c : Client DepartmentPermissionDoc) : Client DepartmentPermissionDoc :=
  if c.doc.can_cancel.truthy && !c.doc.can_read.truthy then
    msgprint { text := "Read permission automatically granted with cancel permission." }
      (set_value .can_read (.num 1) c)
  else c

/-- Handler `can_approve`. -/
def can_approve (c : Client DepartmentPermissionDoc) : Client DepartmentPermissionDoc :=
  if c.doc.can_approve.truthy && !c.doc.can_read.truthy then
    msgprint { text := "Read permission automatically granted with approve permission." }
      (set_value .can_read (.num 1) c)
  else c

/-- Handler `valid_from`: a note when the start date lies in the future. -/
def valid_from (dt : Datetime) (c : Client DepartmentPermissionDoc) :
    Client DepartmentPermissionDoc :=
  if c.doc.valid_from.truthy then
    let valid_from := dt.str_to_obj c.doc.valid_from
    let today := dt.now_date
    if dateLt today valid_from then
      msgprint { text := "Note: This permission will only be effective from {0}.",
                 args := [dt.str_to_user c.doc.valid_from] } c
    else c
  else c

/-- Handler `valid_upto`: a valid_upto before valid_from is cleared, then a
valid_upto in the past is reported. -/
def valid_upto (dt : Datetime) (c : Client DepartmentPermissionDoc) :
    Client DepartmentPermissionDoc :=
  let c1 :=
    if c.doc.valid_from.truthy && c.doc.valid_upto.truthy then
      let valid_from := dt.str_to_obj c.doc.valid_from
      let valid_upto := dt.str_to_obj c.doc.valid_upto
      if dateLt valid_upto valid_from then
        set_value .valid_upto (.str "")
          (msgprint { text := "Valid Upto date must be on or after Valid From date." } c)
      else c
    else c
  if c1.doc.valid_upto.truthy then
    let valid_upto := dt.str_to_obj c1.doc.valid_upto
    let today := dt.now_date
    if dateLt valid_upto today then
      msgprint { text := "Warning: This permission has already expired on {0}.",
                 args := [dt.str_to_user c1.doc.valid_upto] } c1
    else c1
  else c1

/-- The seven permission flags of a row. -/
def flags : List Fieldname :=
  [.can_read, .can_write, .can_create, .can_delete, .can_submit, .can_cancel, .can_approve]

/-- The flags whose granting implies read access. -/
def impliesRead : List Fieldname :=
  [.can_write, .can_create, .can_delete, .can_submit, .can_cancel, .can_approve]

/-- The flags whose granting implies write access. -/
def impliesWrite : List Fieldname :=
  [.can_create, .can_delete, .can_submit]

/-- The handler table of `frappe.ui.form.on('Department Permission', ...)` for
the permission flags and the two dates; the other fields of this model have no
handler that touches the row. -/
def handler (dt : Datetime) : Fieldname →
    Client DepartmentPermissionDoc → Client DepartmentPermissionDoc
  | .can_read => can_read
  | .can_write => can_write
  | .can_create => can_create
  | .can_delete => can_delete
  | .can_submit => can_submit
  | .can_cancel => can_cancel
  | .can_approve => can_approve
  | .valid_from => valid_from dt
  | .valid_upto => valid_upto dt
  | _ => id

/-- The user edits a field of the row in the grid: the value is stored, then the
field's change handler runs. -/
def edit (dt : Datetime) (fieldname : Fieldname) (value : Value)
    (c : Client DepartmentPermissionDoc) : Client DepartmentPermissionDoc :=
  handler dt fieldname (set_value fieldname value c)

/-- No permission flag of the row is set. -/
def noPermission (row : DepartmentPermissionDoc) : Bool :=
  flags.all fun f => !(get row f).truthy

/-- Both dates of the row are set and the end date is strictly earlier than the
start date. -/
def outOfOrder (dt : Datetime) (row : DepartmentPermissionDoc) : Bool :=
  row.valid_from.truthy && row.valid_upto.truthy
    && dateLt (dt.str_to_obj row.valid_upto) (dt.str_to_obj row.valid_from)

end DepartmentPermission

/-! ## Department form (`departments/doctype/department/department.js`) -/

/-- The Department document behind the form (`frm.doc`). -/
structure DepartmentDoc where
  name : String
  department_code : Value := .undefined
  company : Value := .undefined
  parent_department : Value := .undefined
  is_active : Value := .undefined
  deriving DecidableEq, Repr

/-- The method `String.prototype.toUpperCase`: every character is replaced by
its upper-case mapping, which may be several characters long.  The mapping table
of the JavaScript engine is the parameter `upper`. -/
def toUpperCase (upper : Char → List Char) (s : String) : String :=
  ⟨s.data.flatMap upper⟩

/-- The table maps every character it produces to itself: upper-case characters
have no further upper-case mapping. -/
def UpperStable (upper : Char → List Char) : Prop :=
  ∀ c : Char, ∀ d ∈ upper c, upper d = [d]

/-- A small mapping table: the ASCII letters, and the sharp s that becomes two
characters. -/
def sampleUpper (c : Char) : List Char :=
  if c = 'ß' then ['S', 'S']
  else if 97 ≤ c.toNat ∧ c.toNat ≤ 122 then [Char.ofNat (c.toNat - 32)]
  else [c]

namespace Department

/-- The two callbacks handed to `frappe.db.get_value`. -/
inductive Callback where
  | company
  | parent_department
  deriving DecidableEq, Repr

/-- A lookup `frappe.db.get_value(doctype, name, fieldname, callback)` that has
been issued and not yet answered. -/
structure Lookup where
  doctype : String
  name : Value
  fieldname : String
  callback : Callback
  deriving DecidableEq, Repr

/-- The argument `r` a lookup callback receives. -/
inductive Response where
  | falsy
  | noMessage
  | message (company : Value)
  deriving DecidableEq, Repr

/-- The form while handlers run: document, notices shown, lookups in flight
(oldest first). -/
structure Form where
  doc : DepartmentDoc
  msgs : List Message := []
  lookups : List Lookup := []
  deriving DecidableEq, Repr

/-- The fields `frm.set_value` is called on. -/
inductive Fieldname where
  | department_code
  | company
  | parent_department
  | is_active
  deriving DecidableEq, Repr

/-- The call `frm.set_value(fieldname, value)`: the document is updated at
once. -/
def set_value (fieldname : Fieldname) (value : Value) (frm : Form) : Form :=
  match fieldname with
  | .department_code => { frm with doc := { frm.doc with department_code := value } }
  | .company => { frm with doc := { frm.doc with company := value } }
  | .parent_department => { frm with doc := { frm.doc with parent_department := value } }
  | .is_active => { frm with doc := { frm.doc with is_active := value } }

/-- The call `frappe.msgprint(__(text))` on a Department form. -/
def msgprint (m : Message) (frm : Form) : Form :=
  { frm with msgs := frm.msgs ++ [m] }

/-- The call `frappe.db.get_value('Department', name, 'company', callback)`. -/
def get_value (name : Value) (callback : Callback) (frm : Form) : Form :=
  { frm with lookups := frm.lookups ++
      [{ doctype := "Department", name := name, fieldname := "company", callback := callback }] }

/-- Handler `department_code`.  A truthy value that is not a string has no
`toUpperCase` method: the call throws and the form is left as it was. -/
def department_code (upper : Char → List Char) (frm : Form) : Form :=
  if frm.doc.department_code.truthy then
    match frm.doc.department_code with
    | .str s => set_value .department_code (.str (toUpperCase upper s)) frm
    | _ => frm
  else frm

/-- Handler `company`: the parent's company is looked up. -/
def company (frm : Form) : Form :=
  if frm.doc.parent_department.truthy then
    get_value frm.doc.parent_department .company frm
  else frm

/-- Handler `parent_department`: the parent's company is looked up when the form
has a company, then a department that names itself as parent is refused. -/
def parent_department (frm : Form) : Form :=
  let frm1 :=
    if frm.doc.parent_department.truthy && frm.doc.company.truthy then
      get_value frm.doc.parent_department .parent_department frm
    else frm
  if frm1.doc.parent_department = .str frm1.doc.name then
    set_value .parent_department (.str "")
      (msgprint { text := "A department cannot be its own parent." } frm1)
  else frm1

/-- The condition `r && r.message && r.message.company !== frm.doc.company` of
both callbacks. -/
def differentCompany (r : Response) (frm : Form) : Bool :=
  match r with
  | .message company => company != frm.doc.company
  | _ => false

/-- The body of a lookup callback, run with the response `r`. -/
def runCallback (cb : Callback) (r : Response) (frm : Form) : Form :=
  match cb with
  | .company =>
    if differentCompany r frm then
      set_value .parent_department (.str "")
        (msgprint { text :=
          "Parent department belongs to a different company. Clearing parent department." } frm)
    else frm
  | .parent_department =>
    if differentCompany r frm then
      set_value .parent_department (.str "")
        (msgprint { text := "Parent department must belong to the same company." } frm)
    else frm

/-- The oldest lookup in flight is answered with `r`: its callback runs.  With
no lookup in flight nothing happens. -/
def complete (r : Response) (frm : Form) : Form :=
  match frm.lookups with
  | [] => frm
  | l :: rest => runCallback l.callback r { frm with lookups := rest }

end Department

/-! ## Role form (`public/js/role.js`) -/

/-- A permission as returned by `get_available_permissions`. -/
structure Permission where
  code : Value
  name : Value := .undefined
  category : Value := .undefined
  description : Value := .undefined
  department_restricted : Value := .undefined
  deriving DecidableEq, Repr

/-- A row of the `custom_permissions` child table of a Role. -/
structure RolePermissionDoc where
  permission_code : Value := .undefined
  is_granted : Value := .undefined
  permission_name : Value := .undefined
  permission_category : Value := .undefined
  description : Value := .undefined
  department_restricted : Value := .undefined
  deriving DecidableEq, Repr

/-- The Role document behind the form. -/
structure RoleDoc where
  name : String
  custom_permissions : List RolePermissionDoc := []
  is_custom_role : Value := .undefined
  role_description : Value := .undefined
  deriving DecidableEq, Repr

namespace Role

/-- The expression `frm.doc.custom_permissions.map(p => p.permission_code)`. -/
def existing_codes (doc : RoleDoc) : List Value :=
  doc.custom_permissions.map fun p => p.permission_code

/-- The expression
`permissions.filter(p => !existing_codes.includes(p.code))`. -/
def available (doc : RoleDoc) (permissions : List Permission) : List Permission :=
  permissions.filter fun p => !(existing_codes doc).contains p.code

/-- What the callback of the Add Permissions action does with the fetched list
`r.message` (`none` when it is missing). -/
inductive AddPermissions where
  | nothing
  | msgprint (m : Message)
  | dialog (offered : List Permission)
  deriving DecidableEq, Repr

/-- The callback of the Add Permissions action up to the point where the dialog
is built from the permissions still on offer. -/
def add_permissions (doc : RoleDoc) (message : Option (List Permission)) : AddPermissions :=
  match message with
  | none => .nothing
  | some permissions =>
    let available := available doc permissions
    if available.length = 0 then
      .msgprint { text := "All permissions are already granted to this role." }
    else .dialog available

/-- The role holds the permission `code`: some row of `custom_permissions`
carries the code with `is_granted` set. -/
def granted (doc : RoleDoc) (code : Value) : Bool :=
  doc.custom_permissions.any fun p => p.permission_code == code && p.is_granted.truthy

/-! ### The dialog of the Add Permissions action: grouping and headings -/

/-- The property key a value becomes when it indexes an object
(`by_category[p.category]`): a string is its own key; numbers print in decimal,
as JavaScript prints the integers a field can hold. -/
def toPropertyKey : Value → String
  | .undefined => "undefined"
  | .null => "null"
  | .num n => toString n
  | .str s => s

/-- The property names an object literal inherits from `Object.prototype`. -/
def objectPrototypeKeys : List String :=
  ["constructor", "__proto__", "hasOwnProperty", "isPrototypeOf", "propertyIsEnumerable",
   "toLocaleString", "toString", "valueOf", "__defineGetter__", "__defineSetter__",
   "__lookupGetter__", "__lookupSetter__"]

/-- The category of the permission is a string that names no inherited
property of an object. -/
def ordinaryCategory (p : Permission) : Bool :=
  match p.category with
  | .str s => !objectPrototypeKeys.contains s
  | _ => false

/-- The object `by_category`: its own properties, each an array of permissions,
in the order in which they were created. -/
abbrev ByCategory := List (String × List Permission)

/-- The own property `key` of the object, if it has one. -/
def own (o : ByCategory) (key : String) : Option (List Permission) :=
  o.lookup key

/-- The call `by_category[key].push(p)` on an own property. -/
def push (o : ByCategory) (key : String) (p : Permission) : ByCategory :=
  o.map fun e => if e.1 = key then (e.1, e.2 ++ [p]) else e

/-- One round of `available.forEach`: the array of the category is created when
`by_category[p.category]` is falsy, then `p` is pushed onto it.  An array is
truthy, also when empty.  Under an inherited name the object already answers
with a truthy value that has no `push`: the call throws (`none`). -/
def group (o : ByCategory) (p : Permission) : Option ByCategory :=
  match own o (toPropertyKey p.category) with
  | some _ => some (push o (toPropertyKey p.category) p)
  | none =>
    if objectPrototypeKeys.contains (toPropertyKey p.category) then none
    else some (o ++ [(toPropertyKey p.category, [p])])

/-- The object `by_category` after `available.forEach(...)`. -/
def by_category (available : List Permission) : Option ByCategory :=
  available.foldlM group []

/-- The UTF-16 code units of a string, the units `sort()` compares. -/
def utf16 (s : String) : List Nat :=
  s.data.flatMap fun c =>
    if c.toNat < 0x10000 then [c.toNat]
    else [0xD800 + (c.toNat - 0x10000) / 0x400, 0xDC00 + (c.toNat - 0x10000) % 0x400]

/-- Lexicographic `a ≤ b` on code units. -/
def unitsLe : List Nat → List Nat → Bool
  | [], _ => true
  | _ :: _, [] => false
  | a :: as, b :: bs => a < b || (a == b && unitsLe as bs)

/-- The order of `Array.prototype.sort()` without a comparator, on strings. -/
def sortLe (a b : String) : Prop :=
  unitsLe (utf16 a) (utf16 b) = true

instance : DecidableRel sortLe :=
  fun a b => inferInstanceAs (Decidable (unitsLe (utf16 a) (utf16 b) = true))

/-- The call `keys.sort()`. -/
def sort (keys : List String) : List String :=
  keys.insertionSort sortLe

/-- The array index a property key stands for: a decimal numeral without
leading zero, below `2^32 - 1`. -/
def arrayIndex (key : String) : Option Nat :=
  if key.data ≠ [] ∧ key.data.all Char.isDigit ∧ (key.data.head? ≠ some '0' ∨ key.data.length = 1)
  then
    let n := key.data.foldl (fun n d => 10 * n + (d.toNat - 48)) 0
    if n < 2 ^ 32 - 1 then some n else none
  else none

/-- The call `Object.keys(by_category)`: array indices in ascending numeric
order, then the other keys in the order of their creation. -/
def object_keys (o : ByCategory) : List String :=
  ((o.map (·.1)).filter fun k => (arrayIndex k).isSome).insertionSort
      (fun a b => (arrayIndex a).getD 0 ≤ (arrayIndex b).getD 0)
    ++ (o.map (·.1)).filter fun k => !(arrayIndex k).isSome

/-- What the dialog shows for one category: the `<h5>` heading and the
checkboxes written after it, one per permission. -/
structure CategoryBlock where
  heading : String
  checkboxes : List Permission
  deriving DecidableEq, Repr

/-- The content of `permissions_html`: for every key of `by_category`, taken in
sorted order, the heading and the checkboxes of `by_category[category]`;
`none` when the grouping has thrown. -/
def permissions_html (available : List Permission) : Option (List CategoryBlock) :=
  (by_category available).map fun o =>
    (sort (object_keys o)).map fun category =>
      { heading := category, checkboxes := (own o category).getD [] }

/-- The checkboxes of the dialog, top to bottom. -/
def checkboxes (blocks : List CategoryBlock) : List Permission :=
  blocks.flatMap (·.checkboxes)

/-- Five permissions of three categories, as fetched. -/
def samplePermissions : List Permission :=
  [{ code := .str "users.view", category := .str "Users" },
   { code := .str "inventory.view", category := .str "Inventory" },
   { code := .str "users.edit", category := .str "Users" },
   { code := .str "audit.view", category := .str "10 Audit" },
   { code := .str "inventory.count", category := .str "Inventory" }]

/-- The dialog for `samplePermissions`: three headings in sorted order, the
permissions of each category in the order in which they were fetched. -/
def sampleBlocks : List CategoryBlock :=
  [{ heading := "10 Audit",
     checkboxes := [{ code := .str "audit.view", category := .str "10 Audit" }] },
   { heading := "Inventory",
     checkboxes := [{ code := .str "inventory.view", category := .str "Inventory" },
                    { code := .str "inventory.count", category := .str "Inventory" }] },
   { heading := "Users",
     checkboxes := [{ code := .str "users.view", category := .str "Users" },
                    { code := .str "users.edit", category := .str "Users" }] }]

/-- The object `o` groups the permissions of `l`: its keys are distinct, every
key carries the permissions of `l` filed under it in the order of `l`, every
permission of `l` has its key in `o`, and no key carries an empty array. -/
def Grouped (o : ByCategory) (l : List Permission) : Prop :=
  (o.map (·.1)).Nodup ∧
  (∀ e ∈ o, e.2 = l.filter fun p => toPropertyKey p.category == e.1) ∧
  (∀ p ∈ l, toPropertyKey p.category ∈ o.map (·.1)) ∧
  (∀ e ∈ o, e.2 ≠ [])

end Role

/-! ## Theorems: permission flags of a Department Permission row -/

namespace DepartmentPermission

theorem truthy_one : (Value.num 1).truthy = true := by decide

theorem truthy_empty : (Value.str "").truthy = false := by decide

/-- C1: when a flag among can_write, can_create, can_delete, can_submit,
can_cancel and can_approve is set on the row as its change handler starts,
can_read is set on the row the handler leaves, whatever the other flags are. -/
theorem granting_forces_can_read (dt : Datetime) (f : Fieldname) (hf : f ∈ impliesRead)
    (c : Client DepartmentPermissionDoc) (hset : (get c.doc f).truthy = true) :
    (handler dt f c).doc.can_read.truthy = true := by
  simp only [impliesRead, List.mem_cons, List.mem_singleton, List.not_mem_nil, or_false] at hf
  rcases hf with rfl | rfl | rfl | rfl | rfl | rfl <;>
    simp only [get] at hset <;>
    cases hr : c.doc.can_read.truthy <;> cases hw : c.doc.can_write.truthy <;>
    simp_all [handler, can_write, can_create, can_delete, can_submit, can_cancel, can_approve,
      set_value, put, msgprint, truthy_one]

/-- Witness of C1: a row on which only can_create is set. -/
theorem granting_forces_can_read_witness :
    (get { can_create := .num 1 } .can_create).truthy = true ∧
    (handler sampleDatetime .can_create { doc := { can_create := .num 1 } }).doc.can_read.truthy
      = true :=
  ⟨by decide, granting_forces_can_read sampleDatetime .can_create (by decide)
    { doc := { can_create := .num 1 } } (by decide)⟩

/-- C2: when a flag among can_create, can_delete and can_submit is set on the
row as its change handler starts, can_write is set on the row the handler
leaves, whatever the other flags are. -/
theorem granting_forces_can_write (dt : Datetime) (f : Fieldname) (hf : f ∈ impliesWrite)
    (c : Client DepartmentPermissionDoc) (hset : (get c.doc f).truthy = true) :
    (handler dt f c).doc.can_write.truthy = true := by
  simp only [impliesWrite, List.mem_cons, List.mem_singleton, List.not_mem_nil, or_false] at hf
  rcases hf with rfl | rfl | rfl <;>
    simp only [get] at hset <;>
    cases hr : c.doc.can_read.truthy <;> cases hw : c.doc.can_write.truthy <;>
    simp_all [handler, can_create, can_delete, can_submit, set_value, put, msgprint, truthy_one]

/-- Witness of C2: a row on which can_read and can_delete are set. -/
theorem granting_forces_can_write_witness :
    (get { can_read := .num 1, can_delete := .num 1 } .can_delete).truthy = true ∧
    (handler sampleDatetime .can_delete
      { doc := { can_read := .num 1, can_delete := .num 1 } }).doc.can_write.truthy = true :=
  ⟨by decide, granting_forces_can_write sampleDatetime .can_delete (by decide)
    { doc := { can_read := .num 1, can_delete := .num 1 } } (by decide)⟩

/-- The can_read handler restores read access on a row without any permission,
with the notice that one permission must stay. -/
theorem can_read_restores (c : Client DepartmentPermissionDoc)
    (h : noPermission c.doc = true) :
    (can_read c).doc = put c.doc .can_read (.num 1) ∧
    (can_read c).msgs = c.msgs ++ [{ text := "At least one permission must be selected." }] ∧
    noPermission (can_read c).doc = false := by
  simp only [noPermission, flags, List.all_cons, List.all_nil, get, Bool.and_true,
    Bool.and_eq_true, Bool.not_eq_true'] at h
  obtain ⟨h1, h2, h3, h4, h5, h6, h7⟩ := h
  simp [can_read, h1, h2, h3, h4, h5, h6, h7, set_value, msgprint, put, noPermission, flags, get,
    truthy_one]

/-- On a row without any permission the handlers of the six other flags do
nothing: the row stays without permission and no notice is shown. -/
theorem other_handlers_do_not_restore (dt : Datetime) (f : Fieldname) (hf : f ∈ impliesRead)
    (c : Client DepartmentPermissionDoc) (h : noPermission c.doc = true) :
    handler dt f c = c := by
  simp only [noPermission, flags, List.all_cons, List.all_nil, get, Bool.and_true,
    Bool.and_eq_true, Bool.not_eq_true'] at h
  obtain ⟨h1, h2, h3, h4, h5, h6, h7⟩ := h
  simp only [impliesRead, List.mem_cons, List.mem_singleton, List.not_mem_nil, or_false] at hf
  rcases hf with rfl | rfl | rfl | rfl | rfl | rfl <;>
    simp [handler, can_write, can_create, can_delete, can_submit, can_cancel, can_approve,
      h1, h2, h3, h4, h5, h6, h7]

/-- C3, evaluated where it fails: a new row gets its default read access, the
user checks can_write, unchecks can_read (nothing happens, can_write is still
set), then unchecks can_write.  The can_write handler leaves the row with all
seven flags unset and shows no notice beyond none at all. -/
theorem unchecking_can_write_last_leaves_no_permission :
    noPermission (set_value .can_write (.num 0)
      (edit sampleDatetime .can_read (.num 0) (edit sampleDatetime .can_write (.num 1)
        (department_permissions_add ⟨{}, []⟩)))).doc = true ∧
    edit sampleDatetime .can_write (.num 0)
      (edit sampleDatetime .can_read (.num 0) (edit sampleDatetime .can_write (.num 1)
        (department_permissions_add ⟨{}, []⟩)))
      = ⟨{ is_active := .num 1, can_read := .num 0, can_write := .num 0 }, []⟩ ∧
    noPermission { is_active := .num 1, can_read := .num 0, can_write := .num 0 } = true := by
  decide

/-- The handlers of can_create, can_delete and can_submit never show a notice:
their test of can_read and can_write comes after both have been set. -/
theorem create_delete_submit_show_nothing (c : Client DepartmentPermissionDoc) :
    (can_create c).msgs = c.msgs ∧ (can_delete c).msgs = c.msgs ∧
    (can_submit c).msgs = c.msgs := by
  refine ⟨?_, ?_, ?_⟩ <;>
    cases hr : c.doc.can_read.truthy <;> cases hw : c.doc.can_write.truthy <;>
    simp [can_create, can_delete, can_submit, set_value, put, msgprint, truthy_one, hr, hw] <;>
    split <;> rfl

/-- C9, evaluated where it fails: on rows with can_create (can_delete,
can_submit) set and neither can_read nor can_write, the handler grants both and
shows no notice, while the can_write handler on a row with only can_write set
shows its notice. -/
theorem create_delete_submit_notice_missing :
    can_create { doc := { can_create := .num 1 } }
      = { doc := { can_create := .num 1, can_read := .num 1, can_write := .num 1 }, msgs := [] } ∧
    can_delete { doc := { can_delete := .num 1 } }
      = { doc := { can_delete := .num 1, can_read := .num 1, can_write := .num 1 }, msgs := [] } ∧
    can_submit { doc := { can_submit := .num 1 } }
      = { doc := { can_submit := .num 1, can_read := .num 1, can_write := .num 1 }, msgs := [] } ∧
    can_write { doc := { can_write := .num 1 } }
      = { doc := { can_write := .num 1, can_read := .num 1 },
          msgs := [{ text := "Read permission automatically granted with write permission." }] } := by
  refine ⟨?_, ?_, ?_, ?_⟩ <;> rfl

end DepartmentPermission

/-! ## Handlers run again by `set_value`

The framework runs the change handler of a field that `set_value` has changed.
For every `set_value` the handlers of a row make, that second run finds nothing
to do, so the immediate update is all that happens. -/

namespace DepartmentPermission

/-- After `set_value('can_read', 1)` the can_read handler does nothing. -/
theorem can_read_idle_after_set (c : Client DepartmentPermissionDoc) :
    can_read (set_value .can_read (.num 1) c) = set_value .can_read (.num 1) c := by
  simp [can_read, set_value, put, truthy_one]

/-- After `set_value('can_write', 1)` on a row with can_read set, as it is when
the handlers of can_create, can_delete and can_submit make that call, the
can_write handler does nothing. -/
theorem can_write_idle_after_set (c : Client DepartmentPermissionDoc)
    (h : c.doc.can_read.truthy = true) :
    can_write (set_value .can_write (.num 1) c) = set_value .can_write (.num 1) c := by
  simp [can_write, set_value, put, h]

/-- After `set_value('valid_upto', '')` the valid_upto handler does nothing. -/
theorem valid_upto_idle_after_set (dt : Datetime) (c : Client DepartmentPermissionDoc) :
    valid_upto dt (set_value .valid_upto (.str "") c) = set_value .valid_upto (.str "") c := by
  simp [valid_upto, set_value, put, truthy_empty]

end DepartmentPermission

/-! ## Theorems: validity dates of a Department Permission row -/

namespace DepartmentPermission

/-- The document of a state chosen by a test. -/
theorem doc_ite {α : Type} (p : Prop) [Decidable p] (a b : Client α) :
    (if p then a else b).doc = if p then a.doc else b.doc := by
  split <;> rfl

/-- The row the valid_upto handler leaves: valid_upto emptied when the dates
were out of order, the row as it was otherwise. -/
theorem valid_upto_doc (dt : Datetime) (c : Client DepartmentPermissionDoc) :
    (valid_upto dt c).doc
      = (if outOfOrder dt c.doc then put c.doc .valid_upto (.str "") else c.doc) := by
  cases hf : c.doc.valid_from.truthy <;> cases hu : c.doc.valid_upto.truthy <;>
    cases hl : dateLt (dt.str_to_obj c.doc.valid_upto) (dt.str_to_obj c.doc.valid_from) <;>
    simp [valid_upto, outOfOrder, hf, hu, hl, set_value, put, truthy_empty, doc_ite, msgprint]

/-- C4: the valid_upto handler clears valid_upto (sets it to the empty string)
exactly when both dates are set and valid_upto is strictly earlier than
valid_from; otherwise the row is left as it was, and valid_from is never
changed. -/
theorem valid_upto_clears_iff_out_of_order (dt : Datetime)
    (c : Client DepartmentPermissionDoc) :
    (valid_upto dt c).doc
      = (if outOfOrder dt c.doc then put c.doc .valid_upto (.str "") else c.doc) ∧
    ((valid_upto dt c).doc.valid_upto ≠ c.doc.valid_upto ↔ outOfOrder dt c.doc = true) ∧
    (valid_upto dt c).doc.valid_from = c.doc.valid_from := by
  refine ⟨valid_upto_doc dt c, ?_, ?_⟩
  · rw [valid_upto_doc]
    cases h : outOfOrder dt c.doc
    · simp
    · simp only [outOfOrder, Bool.and_eq_true] at h
      have hu := h.1.2
      simp only [if_true, put, ne_eq, iff_true]
      intro he
      rw [← he] at hu
      simp [Value.truthy] at hu
  · rw [valid_upto_doc]
    split <;> rfl

/-- Equal dates, an unset valid_from and an unset valid_upto are not out of
order: the valid_upto handler leaves such rows as they are. -/
theorem not_out_of_order (dt : Datetime) (row : DepartmentPermissionDoc) :
    (dt.str_to_obj row.valid_upto = dt.str_to_obj row.valid_from
      ∨ row.valid_from.truthy = false ∨ row.valid_upto.truthy = false) →
    outOfOrder dt row = false := by
  rintro (h | h | h)
  · rw [outOfOrder, h]
    cases dt.str_to_obj row.valid_from <;> simp [dateLt]
  · simp [outOfOrder, h]
  · simp [outOfOrder, h]

/-- After the valid_upto handler the dates of the row are not out of order. -/
theorem valid_upto_restores_order (dt : Datetime) (c : Client DepartmentPermissionDoc) :
    outOfOrder dt (valid_upto dt c).doc = false := by
  rw [valid_upto_doc]
  cases h : outOfOrder dt c.doc
  · simpa using h
  · simp [outOfOrder, put, Value.truthy]

/-- The valid_from handler never changes the row: it only shows a note. -/
theorem valid_from_keeps_row (dt : Datetime) (c : Client DepartmentPermissionDoc) :
    (valid_from dt c).doc = c.doc := by
  simp [valid_from, doc_ite, msgprint]

/-- C5, evaluated where it fails: on a row valid from 2024-01-01 up to
2024-03-31 the user moves valid_from to 2024-06-01.  The valid_from handler
shows its note about the future start and leaves both dates set with valid_upto
strictly earlier than valid_from. -/
theorem valid_from_leaves_dates_out_of_order :
    (edit sampleDatetime .valid_from (.str "2024-06-01")
      { doc := { can_read := .num 1, valid_from := .str "2024-01-01",
                 valid_upto := .str "2024-03-31" } })
      = { doc := { can_read := .num 1, valid_from := .str "2024-06-01",
                   valid_upto := .str "2024-03-31" },
          msgs := [{ text := "Note: This permission will only be effective from {0}.",
                     args := [.str "2024-06-01"] }] } ∧
    outOfOrder sampleDatetime
      { can_read := .num 1, valid_from := .str "2024-06-01", valid_upto := .str "2024-03-31" }
      = true := by
  constructor <;> decide

end DepartmentPermission

/-! ## Theorems: Department form -/

namespace Department

/-- A list of characters that are their own upper-case mapping is unchanged by
upper-casing. -/
theorem flatMap_upper_fixed (upper : Char → List Char) (l : List Char)
    (h : ∀ d ∈ l, upper d = [d]) : l.flatMap upper = l := by
  induction l with
  | nil => rfl
  | cons a t ih =>
    have ha : upper a = [a] := h a (List.mem_cons_self a t)
    have ht : t.flatMap upper = t := ih fun d hd => h d (List.mem_cons_of_mem a hd)
    simp [List.flatMap_cons, ha, ht]

/-- With a stable mapping table, upper-casing twice is upper-casing once. -/
theorem toUpperCase_idem (upper : Char → List Char) (hst : UpperStable upper) (s : String) :
    toUpperCase upper (toUpperCase upper s) = toUpperCase upper s := by
  have key : ∀ l : List Char, (l.flatMap upper).flatMap upper = l.flatMap upper := by
    intro l
    induction l with
    | nil => rfl
    | cons a t ih =>
      simp only [List.flatMap_cons, List.flatMap_append, ih]
      rw [flatMap_upper_fixed upper (upper a) (hst a)]
  simp only [toUpperCase, key]

/-- The sample mapping table is stable. -/
theorem sampleUpper_stable : UpperStable sampleUpper := by
  intro c d hd
  unfold sampleUpper at hd
  split at hd
  · simp only [List.mem_cons, List.mem_singleton, List.not_mem_nil, or_false, or_self] at hd
    subst hd
    decide
  · rename_i hc
    split at hd
    · rename_i hr
      simp only [List.mem_singleton] at hd
      subst hd
      obtain ⟨h1, h2⟩ := hr
      generalize c.toNat = n at h1 h2
      interval_cases n <;> decide
    · rename_i hr
      simp only [List.mem_singleton] at hd
      subst hd
      simp [sampleUpper, hc, hr]

/-- C6: after the department_code handler the code is the upper-cased form of
the string the user entered, upper-casing it again gives the same string,
running the handler again changes nothing, and an empty code is left as it is.
The mapping table of the engine is assumed to be stable. -/
theorem department_code_uppercased (upper : Char → List Char) (hst : UpperStable upper)
    (frm : Form) :
    (∀ s, frm.doc.department_code = .str s →
      (department_code upper frm).doc.department_code = .str (toUpperCase upper s) ∧
      toUpperCase upper (toUpperCase upper s) = toUpperCase upper s) ∧
    department_code upper (department_code upper frm) = department_code upper frm ∧
    (frm.doc.department_code.truthy = false → department_code upper frm = frm) := by
  refine ⟨?_, ?_, ?_⟩
  · intro s hs
    refine ⟨?_, toUpperCase_idem upper hst s⟩
    by_cases he : s = ""
    · subst he
      simp [department_code, hs, Value.truthy, toUpperCase]
    · simp [department_code, hs, Value.truthy, he, set_value]
  · cases hv : frm.doc.department_code with
    | undefined => simp [department_code, hv, Value.truthy]
    | null => simp [department_code, hv, Value.truthy]
    | num n => by_cases hn : n = 0 <;> simp [department_code, hv, Value.truthy, hn]
    | str s =>
      by_cases he : s = ""
      · simp [department_code, hv, Value.truthy, he]
      · by_cases he2 : toUpperCase upper s = ""
        · simp [department_code, hv, Value.truthy, he, he2, set_value]
        · simp [department_code, hv, Value.truthy, he, he2, set_value,
            toUpperCase_idem upper hst s]
  · intro hf
    simp [department_code, hf]

/-- Witness of C6: the code `ab-ß1` entered on a form becomes `AB-SS1`. -/
theorem department_code_uppercased_witness :
    UpperStable sampleUpper ∧
    (department_code sampleUpper
      { doc := { name := "new-department-1", department_code := .str "ab-ß1" } }).doc.department_code
      = .str "AB-SS1" ∧
    department_code sampleUpper
      { doc := { name := "new-department-1", department_code := .str "AB-SS1" } }
      = { doc := { name := "new-department-1", department_code := .str "AB-SS1" } } :=
  ⟨sampleUpper_stable,
   ((department_code_uppercased sampleUpper sampleUpper_stable
      { doc := { name := "new-department-1", department_code := .str "ab-ß1" } }).1
        "ab-ß1" rfl).1.trans (by decide),
   by decide⟩

/-- The callbacks never touch the name, and leave parent_department either as
it was or empty. -/
theorem complete_doc (r : Response) (frm : Form) :
    (complete r frm).doc.name = frm.doc.name ∧
    (complete r frm).doc.company = frm.doc.company ∧
    ((complete r frm).doc.parent_department = frm.doc.parent_department ∨
      (complete r frm).doc.parent_department = .str "") := by
  unfold complete
  split
  · simp
  · rename_i l rest _
    cases hl : l.callback <;> simp only [runCallback] <;> split <;>
      simp [set_value, msgprint]

/-- Answering any number of lookups keeps the name and leaves parent_department
as it was or empty. -/
theorem complete_all_doc (rs : List Response) (frm : Form) :
    (rs.foldl (fun f r => complete r f) frm).doc.name = frm.doc.name ∧
    ((rs.foldl (fun f r => complete r f) frm).doc.parent_department = frm.doc.parent_department ∨
      (rs.foldl (fun f r => complete r f) frm).doc.parent_department = .str "") := by
  induction rs generalizing frm with
  | nil => simp
  | cons r t ih =>
    obtain ⟨hn, hp⟩ := ih (complete r frm)
    obtain ⟨hn1, _, hp1⟩ := complete_doc r frm
    simp only [List.foldl_cons]
    refine ⟨hn.trans hn1, ?_⟩
    rcases hp with hp | hp
    · rcases hp1 with hp1 | hp1
      · exact Or.inl (hp.trans hp1)
      · exact Or.inr (hp.trans hp1)
    · exact Or.inr hp

/-- C7: on a form whose document name is not empty, when parent_department is
the document's own name as the parent_department handler starts, the handler
shows its notice and resets parent_department to the empty string; neither
after the handler nor after any answers to its company lookup does
parent_department equal the document's name. -/
theorem self_parent_is_reset (frm : Form) (hname : frm.doc.name ≠ "")
    (hself : frm.doc.parent_department = .str frm.doc.name) :
    (parent_department frm).doc.parent_department = .str "" ∧
    (parent_department frm).doc.name = frm.doc.name ∧
    (parent_department frm).msgs
      = frm.msgs ++ [{ text := "A department cannot be its own parent." }] ∧
    (parent_department frm).doc.parent_department ≠ .str frm.doc.name ∧
    ∀ rs : List Response,
      (rs.foldl (fun f r => complete r f) (parent_department frm)).doc.parent_department
        ≠ .str frm.doc.name := by
  have hne : Value.str "" ≠ Value.str frm.doc.name := by
    intro h
    exact hname (Value.str.inj h).symm
  have h1 : (parent_department frm).doc.parent_department = .str "" ∧
      (parent_department frm).doc.name = frm.doc.name ∧
      (parent_department frm).msgs
        = frm.msgs ++ [{ text := "A department cannot be its own parent." }] := by
    simp only [parent_department]
    generalize (frm.doc.parent_department.truthy && frm.doc.company.truthy) = b
    cases b <;> simp [get_value, hself, set_value, msgprint]
  obtain ⟨hp, hn, hm⟩ := h1
  refine ⟨hp, hn, hm, ?_, ?_⟩
  · rw [hp]
    exact hne
  · intro rs
    rcases (complete_all_doc rs (parent_department frm)).2 with h | h
    · rw [h, hp]
      exact hne
    · rw [h]
      exact hne

/-- Witness of C7: department `D-001` named as its own parent, with a company
set; the lookup is answered with another company, and a second answer finds no
lookup in flight. -/
theorem self_parent_is_reset_witness :
    ("D-001" ≠ "") ∧
    (parent_department
      { doc := { name := "D-001", company := .str "Acme", parent_department := .str "D-001" } }
      ).doc.parent_department = .str "" ∧
    ([Response.message (.str "Globex"), Response.falsy].foldl (fun f r => complete r f)
      (parent_department
        { doc := { name := "D-001", company := .str "Acme", parent_department := .str "D-001" } })
      ).doc.parent_department ≠ .str "D-001" :=
  ⟨by decide,
   (self_parent_is_reset
      { doc := { name := "D-001", company := .str "Acme", parent_department := .str "D-001" } }
      (by decide) rfl).1,
   (self_parent_is_reset
      { doc := { name := "D-001", company := .str "Acme", parent_department := .str "D-001" } }
      (by decide) rfl).2.2.2.2 [Response.message (.str "Globex"), Response.falsy]⟩

/-- The company check run on a form: parent_department is emptied when the
response names another company, and is left alone otherwise. -/
theorem runCallback_parent (cb : Callback) (r : Response) (frm : Form) :
    (runCallback cb r frm).doc.parent_department
      = (if differentCompany r frm then .str "" else frm.doc.parent_department) := by
  cases cb <;> simp only [runCallback] <;> split <;> simp [set_value, msgprint]

/-- C8: on a form with parent_department set and no lookup in flight, with the
answer `r` of the lookup of the parent's company as an input.  The company
handler issues the lookup and leaves the document alone; its callback empties
parent_department exactly when `r` carries a company different from the form's
company, and otherwise leaves it unchanged.  When the form's company is set the
parent_department handler issues the lookup too, and its callback empties
parent_department exactly when `r` carries a different company; otherwise the
company check leaves parent_department as the handler left it, which is as the
user entered it unless the department was named as its own parent. -/
theorem company_check_clears_iff_different (frm : Form) (r : Response)
    (hpd : frm.doc.parent_department.truthy = true) (hq : frm.lookups = []) :
    ((company frm).doc = frm.doc ∧
      (company frm).lookups = [{ doctype := "Department", name := frm.doc.parent_department,
                                 fieldname := "company", callback := .company }] ∧
      (complete r (company frm)).doc.parent_department
        = (if differentCompany r frm then .str "" else frm.doc.parent_department) ∧
      ((complete r (company frm)).doc.parent_department ≠ frm.doc.parent_department
        ↔ differentCompany r frm = true)) ∧
    (frm.doc.company.truthy = true →
      (parent_department frm).lookups
        = [{ doctype := "Department", name := frm.doc.parent_department,
             fieldname := "company", callback := .parent_department }] ∧
      (parent_department frm).doc.company = frm.doc.company ∧
      (complete r (parent_department frm)).doc.parent_department
        = (if differentCompany r frm then .str ""
           else (parent_department frm).doc.parent_department) ∧
      (frm.doc.parent_department ≠ .str frm.doc.name →
        (parent_department frm).doc.parent_department = frm.doc.parent_department ∧
        ((complete r (parent_department frm)).doc.parent_department
            ≠ frm.doc.parent_department
          ↔ differentCompany r frm = true))) := by
  have hne : Value.str "" ≠ frm.doc.parent_department := by
    intro h
    rw [← h] at hpd
    simp [Value.truthy] at hpd
  have hiff : ∀ v : Value,
      v = (if differentCompany r frm then .str "" else frm.doc.parent_department) →
      (v ≠ frm.doc.parent_department ↔ differentCompany r frm = true) := by
    intro v hv
    cases hd : differentCompany r frm
    · simp [hv, hd]
    · simpa [hv, hd] using hne
  have hco : company frm = get_value frm.doc.parent_department .company frm := by
    simp [company, hpd]
  have hc1 : (complete r (company frm)).doc.parent_department
      = (if differentCompany r frm then .str "" else frm.doc.parent_department) := by
    rw [hco]
    simp only [complete, get_value, hq, List.nil_append]
    rw [runCallback_parent]
    rfl
  refine ⟨⟨?_, ?_, hc1, hiff _ hc1⟩, ?_⟩
  · rw [hco]
    rfl
  · rw [hco]
    simp [get_value, hq]
  · intro hcomp
    have hpa : parent_department frm
        = (if (get_value frm.doc.parent_department .parent_department frm).doc.parent_department
              = .str (get_value frm.doc.parent_department .parent_department frm).doc.name then
            set_value .parent_department (.str "")
              (msgprint { text := "A department cannot be its own parent." }
                (get_value frm.doc.parent_department .parent_department frm))
           else get_value frm.doc.parent_department .parent_department frm) := by
      simp [parent_department, hpd, hcomp]
    have hlook : (parent_department frm).lookups
        = [{ doctype := "Department", name := frm.doc.parent_department,
             fieldname := "company", callback := .parent_department }] := by
      rw [hpa]
      split <;> simp [get_value, set_value, msgprint, hq]
    have hcompany : (parent_department frm).doc.company = frm.doc.company := by
      rw [hpa]
      split <;> simp [get_value, set_value, msgprint]
    have hc2 : (complete r (parent_department frm)).doc.parent_department
        = (if differentCompany r frm then .str ""
           else (parent_department frm).doc.parent_department) := by
      have hdc : ∀ g : Form, g.doc.company = frm.doc.company →
          differentCompany r g = differentCompany r frm := by
        intro g hg
        cases r <;> simp [differentCompany, hg]
      simp only [complete, hlook]
      rw [runCallback_parent,
        hdc ⟨(parent_department frm).doc, (parent_department frm).msgs, []⟩ hcompany]
    refine ⟨hlook, hcompany, hc2, ?_⟩
    intro hns
    have hsame : (parent_department frm).doc.parent_department = frm.doc.parent_department := by
      rw [hpa]
      simp [get_value, hns]
    refine ⟨hsame, hiff _ ?_⟩
    rw [hc2, hsame]

/-- Witness of C8: department `D-002` of company Acme with parent `D-001`; the
lookup answers that the parent belongs to Globex. -/
theorem company_check_clears_iff_different_witness :
    (Value.str "D-001").truthy = true ∧
    (complete (.message (.str "Globex")) (company
      { doc := { name := "D-002", company := .str "Acme", parent_department := .str "D-001" } })
      ).doc.parent_department = .str "" ∧
    (complete (.message (.str "Acme")) (company
      { doc := { name := "D-002", company := .str "Acme", parent_department := .str "D-001" } })
      ).doc.parent_department = .str "D-001" ∧
    (complete .noMessage (parent_department
      { doc := { name := "D-002", company := .str "Acme", parent_department := .str "D-001" } })
      ).doc.parent_department = .str "D-001" :=
  ⟨by decide,
   ((company_check_clears_iff_different
      { doc := { name := "D-002", company := .str "Acme", parent_department := .str "D-001" } }
      (.message (.str "Globex")) (by decide) rfl).1.2.2.1).trans (by decide),
   by decide, by decide⟩

end Department

/-! ## Theorems: Add Permissions action of the Role form -/

namespace Role

/-- What the filter of the Add Permissions action keeps: the fetched
permissions whose code appears on no row of custom_permissions, whatever
is_granted says on that row. -/
theorem mem_available (doc : RoleDoc) (permissions : List Permission) (p : Permission) :
    p ∈ available doc permissions ↔
      p ∈ permissions ∧ ∀ row ∈ doc.custom_permissions, row.permission_code ≠ p.code := by
  simp only [available, existing_codes, List.mem_filter, Bool.not_eq_true', List.contains_eq_any_beq,
    List.any_map, List.any_eq_false, Function.comp_apply, beq_iff_eq, ne_eq]
  constructor
  · rintro ⟨hp, h⟩
    exact ⟨hp, fun row hrow he => h _ (List.mem_map_of_mem _ hrow) he.symm⟩
  · rintro ⟨hp, h⟩
    refine ⟨hp, fun x hx he => ?_⟩
    obtain ⟨row, hrow, rfl⟩ := List.mem_map.mp hx
    exact h row hrow he.symm

/-- The notice that all permissions are granted is shown exactly when a list
was fetched and the filter keeps nothing of it; otherwise the dialog offers
what the filter kept. -/
theorem add_permissions_outcome (doc : RoleDoc) (permissions : List Permission) :
    (add_permissions doc (some permissions)
        = .msgprint { text := "All permissions are already granted to this role." }
      ↔ available doc permissions = []) ∧
    (available doc permissions ≠ [] →
      add_permissions doc (some permissions) = .dialog (available doc permissions)) := by
  cases h : available doc permissions <;> simp [add_permissions, h]

/-- C10, evaluated where it fails: the role has one custom_permissions row for
`inventory.view` with is_granted unchecked, so the permission is not granted to
the role; the fetched list holds `inventory.view`.  The filter drops it, nothing
is offered and the notice says all permissions are already granted. -/
theorem ungranted_permission_not_offered :
    granted
      { name := "Stock Clerk",
        custom_permissions := [{ permission_code := .str "inventory.view", is_granted := .num 0 }] }
      (.str "inventory.view") = false ∧
    available
      { name := "Stock Clerk",
        custom_permissions := [{ permission_code := .str "inventory.view", is_granted := .num 0 }] }
      [{ code := .str "inventory.view", name := .str "View Inventory",
         category := .str "Inventory" }] = [] ∧
    add_permissions
      { name := "Stock Clerk",
        custom_permissions := [{ permission_code := .str "inventory.view", is_granted := .num 0 }] }
      (some [{ code := .str "inventory.view", name := .str "View Inventory",
               category := .str "Inventory" }])
      = .msgprint { text := "All permissions are already granted to this role." } := by
  decide

end Role

/-! ## Theorems: grouping by category in the Add Permissions dialog -/

namespace Role

/-- An object has no own property `key` exactly when `key` is none of its
keys. -/
theorem own_eq_none (o : ByCategory) (key : String) :
    own o key = none ↔ key ∉ o.map (·.1) := by
  induction o with
  | nil => simp [own]
  | cons e t ih =>
    simp only [own] at ih
    by_cases h : key = e.1
    · simp [own, List.lookup, h]
    · have h2 : (key == e.1) = false := by simpa using h
      simp [own, List.lookup, h2, ih, h]

/-- With distinct keys, an entry of the object is what its key looks up. -/
theorem own_of_mem (o : ByCategory) (hnd : (o.map (·.1)).Nodup) (e : String × List Permission)
    (he : e ∈ o) : own o e.1 = some e.2 := by
  induction o with
  | nil => simp at he
  | cons a t ih =>
    simp only [List.map_cons, List.nodup_cons] at hnd
    rcases List.mem_cons.mp he with rfl | h
    · simp [own, List.lookup]
    · have hne : e.1 ≠ a.1 := by
        intro heq
        exact hnd.1 (heq ▸ List.mem_map_of_mem (·.1) h)
      have h2 : (e.1 == a.1) = false := by simpa using hne
      have := ih hnd.2 h
      simp only [own] at this
      simp [own, List.lookup, h2, this]

/-- Pushing onto a property creates no key and removes none. -/
theorem map_fst_push (o : ByCategory) (key : String) (p : Permission) :
    (push o key p).map (·.1) = o.map (·.1) := by
  simp only [push, List.map_map]
  apply List.map_congr_left
  intro e _
  simp only [Function.comp_apply]
  split <;> rfl

/-- One round of the grouping keeps the object a grouping of what has been
seen, provided the category names no inherited property. -/
theorem group_grouped (o : ByCategory) (l : List Permission) (p : Permission)
    (hg : Grouped o l) (hp : objectPrototypeKeys.contains (toPropertyKey p.category) = false) :
    ∃ o', group o p = some o' ∧ Grouped o' (l ++ [p]) := by
  obtain ⟨hnd, hval, hcov, hne⟩ := hg
  cases hown : own o (toPropertyKey p.category) with
  | some arr =>
    refine ⟨push o (toPropertyKey p.category) p, by simp [group, hown], ?_, ?_, ?_, ?_⟩
    · rw [map_fst_push]
      exact hnd
    · intro e' he'
      simp only [push, List.mem_map] at he'
      obtain ⟨e, he, rfl⟩ := he'
      by_cases hk : e.1 = toPropertyKey p.category
      · simp [hk, List.filter_append, hval e he]
      · have hk2 : ¬ toPropertyKey p.category = e.1 := fun h => hk h.symm
        simp [hk, hk2, List.filter_append, hval e he]
    · intro q hq
      rw [map_fst_push]
      rcases List.mem_append.mp hq with h | h
      · exact hcov q h
      · simp only [List.mem_singleton] at h
        subst h
        by_contra hc
        rw [(own_eq_none o _).mpr hc] at hown
        cases hown
    · intro e' he'
      simp only [push, List.mem_map] at he'
      obtain ⟨e, he, rfl⟩ := he'
      split
      · simp
      · exact hne e he
  | none =>
    have hnot : toPropertyKey p.category ∉ o.map (·.1) := (own_eq_none o _).mp hown
    have hp' : toPropertyKey p.category ∉ objectPrototypeKeys := by simpa using hp
    refine ⟨o ++ [(toPropertyKey p.category, [p])], by simp [group, hown, hp'], ?_, ?_, ?_, ?_⟩
    · simp only [List.map_append, List.map_cons, List.map_nil]
      rw [List.nodup_append]
      refine ⟨hnd, List.nodup_singleton _, ?_⟩
      intro k hk hk'
      simp only [List.mem_singleton] at hk'
      exact hnot (hk' ▸ hk)
    · intro e he
      rcases List.mem_append.mp he with h | h
      · have hk : ¬ toPropertyKey p.category = e.1 := by
          intro heq
          exact hnot (heq ▸ List.mem_map_of_mem (·.1) h)
        simp [List.filter_append, hval e h, hk]
      · simp only [List.mem_singleton] at h
        subst h
        have hempty : l.filter (fun q => toPropertyKey q.category == toPropertyKey p.category)
            = [] := by
          rw [List.filter_eq_nil_iff]
          intro q hq hqk
          have := hcov q hq
          rw [beq_iff_eq.mp hqk] at this
          exact hnot this
        simp [List.filter_append, hempty]
    · intro q hq
      simp only [List.map_append, List.map_cons, List.map_nil, List.mem_append,
        List.mem_singleton]
      rcases List.mem_append.mp hq with h | h
      · exact Or.inl (hcov q h)
      · simp only [List.mem_singleton] at h
        exact Or.inr (h ▸ rfl)
    · intro e he
      rcases List.mem_append.mp he with h | h
      · exact hne e h
      · simp only [List.mem_singleton] at h
        subst h
        simp

/-- The rounds of `forEach` over `l`, started on an object that groups `pre`,
end on an object that groups `pre ++ l`. -/
theorem foldlM_group_grouped (l : List Permission) :
    ∀ (o : ByCategory) (pre : List Permission), Grouped o pre →
      (∀ p ∈ l, objectPrototypeKeys.contains (toPropertyKey p.category) = false) →
      ∃ o', l.foldlM group o = some o' ∧ Grouped o' (pre ++ l) := by
  induction l with
  | nil =>
    intro o pre hg _
    exact ⟨o, rfl, by simpa using hg⟩
  | cons p t ih =>
    intro o pre hg hl
    obtain ⟨o1, h1, hg1⟩ := group_grouped o pre p hg (hl p (List.mem_cons_self p t))
    obtain ⟨o2, h2, hg2⟩ := ih o1 (pre ++ [p]) hg1 fun q hq => hl q (List.mem_cons_of_mem p hq)
    refine ⟨o2, ?_, by simpa using hg2⟩
    simp [List.foldlM_cons, h1, h2]

/-- The grouping of a list whose categories name no inherited property does not
throw, and yields an object that groups the list. -/
theorem by_category_grouped (l : List Permission)
    (hl : ∀ p ∈ l, objectPrototypeKeys.contains (toPropertyKey p.category) = false) :
    ∃ o, by_category l = some o ∧ Grouped o l := by
  have h0 : Grouped [] [] := ⟨List.nodup_nil, by simp, by simp, by simp⟩
  simpa [by_category] using foldlM_group_grouped l [] [] h0 hl

/-- Any two lists of code units compare one way or the other. -/
theorem unitsLe_total : ∀ a b : List Nat, unitsLe a b = true ∨ unitsLe b a = true
  | [], _ => Or.inl (by simp [unitsLe])
  | _ :: _, [] => Or.inr (by simp [unitsLe])
  | a :: as, b :: bs => by
    rcases Nat.lt_trichotomy a b with h | h | h
    · exact Or.inl (by simp [unitsLe, h])
    · subst h
      rcases unitsLe_total as bs with h2 | h2
      · exact Or.inl (by simp [unitsLe, h2])
      · exact Or.inr (by simp [unitsLe, h2])
    · exact Or.inr (by simp [unitsLe, h])

/-- The comparison of code units is transitive. -/
theorem unitsLe_trans : ∀ a b c : List Nat,
    unitsLe a b = true → unitsLe b c = true → unitsLe a c = true
  | [], _, _ => fun _ _ => by simp [unitsLe]
  | _ :: _, [], _ => fun h _ => by simp [unitsLe] at h
  | _ :: _, _ :: _, [] => fun _ h => by simp [unitsLe] at h
  | a :: as, b :: bs, c :: cs => by
    intro h1 h2
    simp only [unitsLe, Bool.or_eq_true, decide_eq_true_eq, Bool.and_eq_true, beq_iff_eq]
      at h1 h2 ⊢
    rcases h1 with h1 | ⟨h1, h1'⟩
    · rcases h2 with h2 | ⟨h2, _⟩
      · exact Or.inl (Nat.lt_trans h1 h2)
      · exact Or.inl (h2 ▸ h1)
    · rcases h2 with h2 | ⟨h2, h2'⟩
      · exact Or.inl (h1 ▸ h2)
      · exact Or.inr ⟨h1.trans h2, unitsLe_trans as bs cs h1' h2'⟩

/-- The call `Object.keys` lists every key of the object once. -/
theorem object_keys_perm (o : ByCategory) : (object_keys o).Perm (o.map (·.1)) := by
  unfold object_keys
  refine ((List.perm_insertionSort _ _).append_right _).trans ?_
  exact List.filter_append_perm _ _

/-- The sorted keys of a grouping: each key of the object once, in ascending
order. -/
theorem sort_object_keys (o : ByCategory) (hnd : (o.map (·.1)).Nodup) :
    (sort (object_keys o)).Perm (o.map (·.1)) ∧ (sort (object_keys o)).Nodup ∧
    (sort (object_keys o)).Sorted sortLe := by
  have hperm : (sort (object_keys o)).Perm (o.map (·.1)) :=
    (List.perm_insertionSort _ _).trans (object_keys_perm o)
  haveI : IsTotal String sortLe := ⟨fun a b => unitsLe_total (utf16 a) (utf16 b)⟩
  haveI : IsTrans String sortLe :=
    ⟨fun a b c => unitsLe_trans (utf16 a) (utf16 b) (utf16 c)⟩
  exact ⟨hperm, hperm.nodup_iff.mpr hnd, List.sorted_insertionSort _ _⟩

/-- Filing a list under distinct keys that cover it, and reading the files one
key after the other, gives the list back up to order. -/
theorem flatMap_filter_perm (ks : List String) :
    ∀ l : List Permission, ks.Nodup → (∀ p ∈ l, toPropertyKey p.category ∈ ks) →
      (ks.flatMap fun k => l.filter fun p => toPropertyKey p.category == k).Perm l := by
  induction ks with
  | nil =>
    intro l _ hcov
    cases l with
    | nil => simp
    | cons p t => simpa using hcov p (List.mem_cons_self p t)
  | cons k t ih =>
    intro l hnd hcov
    simp only [List.nodup_cons] at hnd
    have hrest : (t.flatMap fun k' => l.filter fun p => toPropertyKey p.category == k')
        = t.flatMap fun k' =>
            (l.filter fun p => !(toPropertyKey p.category == k)).filter
              fun p => toPropertyKey p.category == k' := by
      apply List.flatMap_congr
      intro k' hk'
      rw [List.filter_filter]
      apply List.filter_congr
      intro p _
      by_cases h : toPropertyKey p.category = k'
      · have hne : ¬ toPropertyKey p.category = k := fun h2 => hnd.1 (h2 ▸ h ▸ hk')
        simp [h, hne]
        intro h3
        exact hne (h ▸ h3)
      · simp [h]
    have hcov' : ∀ p ∈ l.filter (fun p => !(toPropertyKey p.category == k)),
        toPropertyKey p.category ∈ t := by
      intro p hp
      obtain ⟨hpl, hpk⟩ := List.mem_filter.mp hp
      rcases List.mem_cons.mp (hcov p hpl) with h | h
      · simp [h] at hpk
      · exact h
    rw [List.flatMap_cons, hrest]
    exact ((ih _ hnd.2 hcov').append_left _).trans (List.filter_append_perm _ l)

/-- The dialog built from a grouping: one block per sorted key, holding the
permissions filed under the key in the order of the list. -/
theorem permissions_html_eq (l : List Permission) (o : ByCategory)
    (ho : by_category l = some o) (hg : Grouped o l) :
    permissions_html l = some ((sort (object_keys o)).map fun category =>
      { heading := category,
        checkboxes := l.filter fun p => toPropertyKey p.category == category }) := by
  obtain ⟨hnd, hval, _, _⟩ := hg
  simp only [permissions_html, ho, Option.map_some']
  congr 1
  apply List.map_congr_left
  intro c hc
  have hc' : c ∈ o.map (·.1) := (sort_object_keys o hnd).1.mem_iff.mp hc
  obtain ⟨e, he, rfl⟩ := List.mem_map.mp hc'
  rw [own_of_mem o hnd e he, Option.getD_some, hval e he]

/-- C11: for every list of offered permissions whose categories are ordinary
strings, the dialog is built, and its blocks are a stable partition of the
list: the checkboxes are a permutation of the offered list; every checkbox
stands under the heading that is its permission's category; the checkboxes of a
block are the offered permissions of that category in the order of the list;
the headings are in ascending order of their code units and none is repeated. -/
theorem grouping_is_stable_partition (offered : List Permission)
    (hord : ∀ p ∈ offered, ordinaryCategory p = true) :
    ∃ blocks, permissions_html offered = some blocks ∧
      (checkboxes blocks).Perm offered ∧
      (∀ b ∈ blocks, ∀ p ∈ b.checkboxes, p.category = .str b.heading) ∧
      (∀ b ∈ blocks, b.checkboxes = offered.filter fun p => p.category == .str b.heading) ∧
      (∀ b ∈ blocks, b.checkboxes.Sublist offered ∧ b.checkboxes ≠ []) ∧
      (blocks.map (·.heading)).Sorted sortLe ∧
      (blocks.map (·.heading)).Nodup := by
  have hstr : ∀ p ∈ offered, p.category = .str (toPropertyKey p.category) ∧
      objectPrototypeKeys.contains (toPropertyKey p.category) = false := by
    intro p hp
    have h := hord p hp
    unfold ordinaryCategory at h
    split at h
    · rename_i s hs
      rw [hs]
      exact ⟨rfl, by simpa [toPropertyKey] using h⟩
    · cases h
  obtain ⟨o, ho, hg⟩ := by_category_grouped offered fun p hp => (hstr p hp).2
  obtain ⟨hperm, hnodup, hsorted⟩ := sort_object_keys o hg.1
  have hfilter : ∀ k : String,
      (offered.filter fun p => toPropertyKey p.category == k)
        = offered.filter fun p => p.category == .str k := by
    intro k
    apply List.filter_congr
    intro p hp
    have hc := (hstr p hp).1
    by_cases h : toPropertyKey p.category = k
    · have h2 : p.category = .str k := h ▸ hc
      simp [h2, toPropertyKey]
    · have h2 : ¬ p.category = .str k := by
        intro h3
        rw [h3] at h
        exact h rfl
      simp [h, h2]
  have hheads : ((sort (object_keys o)).map fun category =>
      ({ heading := category,
         checkboxes := offered.filter fun p => toPropertyKey p.category == category }
        : CategoryBlock)).map (·.heading) = sort (object_keys o) := by
    simp [List.map_map, Function.comp_def]
  refine ⟨_, permissions_html_eq offered o ho hg, ?_, ?_, ?_, ?_, ?_, ?_⟩
  · simp only [checkboxes, List.flatMap_map]
    exact flatMap_filter_perm _ offered hnodup fun p hp => hperm.mem_iff.mpr (hg.2.2.1 p hp)
  · intro b hb p hp
    obtain ⟨k, _, rfl⟩ := List.mem_map.mp hb
    obtain ⟨hpo, hpk⟩ := List.mem_filter.mp hp
    rw [(hstr p hpo).1, beq_iff_eq.mp hpk]
  · intro b hb
    obtain ⟨k, _, rfl⟩ := List.mem_map.mp hb
    exact hfilter k
  · intro b hb
    obtain ⟨k, hk, rfl⟩ := List.mem_map.mp hb
    refine ⟨List.filter_sublist _, ?_⟩
    obtain ⟨e, he, rfl⟩ := List.mem_map.mp (hperm.mem_iff.mp hk)
    have h1 := hg.2.1 e he
    have h2 := hg.2.2.2 e he
    rw [h1] at h2
    exact h2
  · rw [hheads]
    exact hsorted
  · rw [hheads]
    exact hnodup

/-- Witness of C11: five fetched permissions of the categories Users,
Inventory and `10 Audit` give three blocks, headed `10 Audit`, Inventory and
Users. -/
theorem grouping_is_stable_partition_witness :
    samplePermissions.all ordinaryCategory = true ∧
    permissions_html samplePermissions = some sampleBlocks ∧
    (checkboxes sampleBlocks).Perm samplePermissions ∧
    (sampleBlocks.map (·.heading)).Sorted sortLe ∧
    (sampleBlocks.map (·.heading)).Nodup := by
  have he : permissions_html samplePermissions = some sampleBlocks := by decide
  obtain ⟨blocks, hb, hperm, _, _, _, hs, hn⟩ :=
    grouping_is_stable_partition samplePermissions (by decide)
  have hbl : blocks = sampleBlocks := Option.some.inj (hb.symm.trans he)
  subst hbl
  exact ⟨by decide, he, hperm, hs, hn⟩

/-- A category that names an inherited property stops the grouping: the dialog
is not built. -/
theorem inherited_category_throws :
    permissions_html [{ code := .str "x.view", category := .str "constructor" }] = none := by
  decide

end Role

end BlkshpOs
